import Mathlib

/-!
Formal model of the 9cc step-2 compiler (`src/9cc.c`).

The program pipeline is: `tokenize` lexes the command-line argument into a
linked list of tokens, then `main` walks that list with the cursor
primitives `consume` / `expect` / `expect_number` / `at_eof`, printing one
assembly line per grammar step, and `error_at` renders caret diagnostics
and exits with status 1.

Embedding choices, kept as close to the C as Lean allows:
* the singly-linked `Token` list becomes `List Token`; the `next` pointer is
  the list tail;
* a token's `str` field is a `char *` into the NUL-terminated input buffer; we
  model it as the corresponding suffix of the input character list, so
  `token->str[0]` is `strHead t.str` and the byte offset `loc - user_input`
  used by `error_at` is `input.length - str.length` (`tokPos` / `errPos`);
* the global cursor `token` becomes an explicit `List Token` value threaded
  through the consumer functions; `consume` returns the new cursor next to
  its boolean, the others return it through `Except` / pairs;
* `exit(1)` inside `error_at` becomes the `Except` error path / the `err`
  field of `RunResult`; stdout is the list of emitted `Line`s (flushed on
  exit, so lines printed before a fatal error are part of the output);
* `int` values are modelled as `Nat` for token values (`strtol` on a digit
  run is non-negative; the claims restrict attention to literals in range,
  where C `int` arithmetic agrees with `Nat`/`Int`) and as `Int` for the
  value computed by executing the emitted instructions.
-/

namespace NineCC

/-- C `isspace` in the "C" locale: space, \t, \n, \v, \f, \r. -/
def isspace (c : Char) : Bool :=
  c == ' ' || c == '\t' || c == '\n' || c == '\x0b' || c == '\x0c' || c == '\r'

/-- C `isdigit`: ASCII codes 48..57. -/
def isdigit (c : Char) : Bool :=
  48 ≤ c.toNat && c.toNat ≤ 57

/-- Numeric value of an ASCII digit character. -/
def digitVal (c : Char) : Nat := c.toNat - 48

/-- Base-10 value of a digit run: models `strtol(p, &p, 10)` applied to a
maximal run of digits (the only way `9cc.c` calls it). -/
def parseDigits (l : List Char) : Nat :=
  l.foldl (fun a c => a * 10 + digitVal c) 0

/-- `str[0]` where `str` is a pointer into a NUL-terminated C string: the head
of the suffix, or NUL when the pointer sits on the terminator. -/
def strHead (s : List Char) : Char := s.headD (Char.ofNat 0)

/-- `TokenKind` from `9cc.c`. -/
inductive TokenKind
  | TK_RESERVED
  | TK_NUM
  | TK_EOF
deriving DecidableEq

/-- `struct Token`: `kind`, `val` (set only for `TK_NUM`; calloc zeroes it
otherwise), and `str`, the pointer into the input buffer modelled as the
suffix of the input starting at the token's first character.  The `next`
pointer is the tail of the containing `List Token`. -/
structure Token where
  kind : TokenKind
  val : Nat
  str : List Char
deriving DecidableEq

/-- The `while (*p)` loop of `tokenize`, over the remaining suffix of the
input.  A lexical error (`error_at(p, "トークナイズできません")`) is the
`.error` case carrying the pointer `p` (the offending suffix). -/
def tokenize_aux : List Char → Except (List Char) (List Token)
  | [] => .ok [⟨.TK_EOF, 0, []⟩]
  | c :: s =>
    if _hsp : isspace c then
      tokenize_aux s
    else if _hop : c == '+' || c == '-' then
      (tokenize_aux s).map (fun ts => ⟨.TK_RESERVED, 0, c :: s⟩ :: ts)
    else if hdig : isdigit c then
      (tokenize_aux ((c :: s).dropWhile isdigit)).map
        (fun ts => ⟨.TK_NUM, parseDigits ((c :: s).takeWhile isdigit), c :: s⟩ :: ts)
    else
      .error (c :: s)
termination_by l => l.length
decreasing_by
  · simp
  · simp
  · have h1 : (c :: s).dropWhile isdigit = s.dropWhile isdigit :=
      List.dropWhile_cons_of_pos hdig
    have h2 : (s.dropWhile isdigit).length ≤ s.length :=
      (List.dropWhile_sublist isdigit).length_le
    simp [h1]
    omega

/-- `tokenize()` reading the global `user_input`. -/
def tokenize (input : List Char) : Except (List Char) (List Token) :=
  tokenize_aux input

/-- The message argument of an `error_at` call in `9cc.c`. -/
inductive ErrMsg
  | cantTokenize
  | notANumber
  | expectedChar (op : Char)
deriving DecidableEq

/-- A fatal positioned diagnostic: the `loc` pointer passed to `error_at`
(modelled as the suffix of the input it points to) and the message. -/
structure CompErr where
  loc : List Char
  msg : ErrMsg
deriving DecidableEq

/-- `consume(op)`: the global cursor becomes the explicit argument and the
returned second component. -/
def consume (op : Char) : List Token → Bool × List Token
  | [] => (false, [])
  | t :: ts =>
    if t.kind == .TK_RESERVED && strHead t.str == op then (true, ts)
    else (false, t :: ts)

/-- `expect(op)`: advances the cursor or dies with `'%c'ではありません`. -/
def expect (op : Char) : List Token → Except CompErr (List Token)
  | [] => .error ⟨[], .expectedChar op⟩
  | t :: ts =>
    if t.kind == .TK_RESERVED && strHead t.str == op then .ok ts
    else .error ⟨t.str, .expectedChar op⟩

/-- `expect_number()`: returns the token's value and the advanced cursor, or
dies with `数ではありません` at the current token. -/
def expect_number : List Token → Except CompErr (Nat × List Token)
  | [] => .error ⟨[], .notANumber⟩
  | t :: ts =>
    if t.kind == .TK_NUM then .ok (t.val, ts)
    else .error ⟨t.str, .notANumber⟩

/-- `at_eof()`. (`[]` never occurs: `tokenize` always ends the list with the
`TK_EOF` token.) -/
def at_eof : List Token → Bool
  | [] => true
  | t :: _ => t.kind == .TK_EOF

/-- One line printed to stdout by `main`. -/
inductive Line
  | intel
  | globl
  | label
  | mov (n : Nat)
  | add (n : Nat)
  | sub (n : Nat)
  | ret
deriving DecidableEq

/-- The exact text of each printed line. -/
def renderLine : Line → String
  | .intel => ".intel_syntax noprefix"
  | .globl => ".globl main"
  | .label => "main:"
  | .mov n => "  mov rax, " ++ toString n
  | .add n => "  add rax, " ++ toString n
  | .sub n => "  sub rax, " ++ toString n
  | .ret => "  ret"

/-- The three header lines printed before the first `expect_number`. -/
def prologue : List Line := [Line.intel, Line.globl, Line.label]

/-- Whether a line is an instruction (as opposed to a directive or label). -/
def isInstr : Line → Bool
  | .mov _ => true
  | .add _ => true
  | .sub _ => true
  | .ret => true
  | _ => false

theorem consume_true_cons {op : Char} {cursor cur : List Token}
    (h : consume op cursor = (true, cur)) : ∃ t, cursor = t :: cur := by
  match cursor with
  | [] => simp [consume] at h
  | t :: ts =>
    refine ⟨t, ?_⟩
    simp only [consume] at h
    split at h
    · simp only [Prod.mk.injEq] at h
      rw [h.2]
    · simp at h

theorem expect_ok_cons {op : Char} {cursor cur : List Token}
    (h : expect op cursor = .ok cur) : ∃ t, cursor = t :: cur := by
  match cursor with
  | [] => simp [expect] at h
  | t :: ts =>
    refine ⟨t, ?_⟩
    simp only [expect] at h
    split at h
    · simp only [Except.ok.injEq] at h
      rw [h]
    · simp at h

theorem expect_number_ok_cons {cursor cur : List Token} {v : Nat}
    (h : expect_number cursor = .ok (v, cur)) : ∃ t, cursor = t :: cur := by
  match cursor with
  | [] => simp [expect_number] at h
  | t :: ts =>
    refine ⟨t, ?_⟩
    simp only [expect_number] at h
    split at h
    · simp only [Except.ok.injEq, Prod.mk.injEq] at h
      rw [h.2]
    · simp at h

/-- The `while (!at_eof())` loop of `main`: returns the lines it prints and
`some e` when an `expect`/`expect_number` inside it dies.  Lines printed
before the fatal call are kept (stdio is flushed on `exit`). -/
def mainLoop (cursor : List Token) : List Line × Option CompErr :=
  if at_eof cursor then ([], none)
  else
    match h1 : consume '+' cursor with
    | (true, cur) =>
      match h2 : expect_number cur with
      | .error e => ([], some e)
      | .ok (v, cur2) =>
        let r := mainLoop cur2
        (Line.add v :: r.1, r.2)
    | (false, _) =>
      match h3 : expect '-' cursor with
      | .error e => ([], some e)
      | .ok cur =>
        match h4 : expect_number cur with
        | .error e => ([], some e)
        | .ok (v, cur2) =>
          let r := mainLoop cur2
          (Line.sub v :: r.1, r.2)
termination_by cursor.length
decreasing_by
  · obtain ⟨t1, rfl⟩ := consume_true_cons h1
    obtain ⟨t2, rfl⟩ := expect_number_ok_cons h2
    simp only [List.length_cons]
    omega
  · obtain ⟨t1, rfl⟩ := expect_ok_cons h3
    obtain ⟨t2, rfl⟩ := expect_number_ok_cons h4
    simp only [List.length_cons]
    omega

/-- Outcome of a run of `main` on a single expression argument: the lines
printed to stdout (in order, including lines printed before a fatal error)
and the fatal diagnostic, if any.  `err = none` means `main` returned 0. -/
structure RunResult where
  out : List Line
  err : Option CompErr
deriving DecidableEq

/-- `main` on the expression argument (the `argc == 2` path). -/
def main (input : List Char) : RunResult :=
  match tokenize input with
  | .error loc => ⟨[], some ⟨loc, .cantTokenize⟩⟩
  | .ok toks =>
    match expect_number toks with
    | .error e => ⟨prologue, some e⟩
    | .ok (v, cur) =>
      match mainLoop cur with
      | (ls, some e) => ⟨prologue ++ Line.mov v :: ls, some e⟩
      | (ls, none) => ⟨prologue ++ Line.mov v :: ls ++ [Line.ret], none⟩

/-- Process exit status of a run. -/
def exitCode (r : RunResult) : Nat :=
  match r.err with
  | some _ => 1
  | none => 0

/-- Byte offset of a token within the input: `token->str - user_input`. -/
def tokPos (input : List Char) (t : Token) : Nat :=
  input.length - t.str.length

/-- Byte offset of a diagnostic location: `loc - user_input` in `error_at`. -/
def errPos (input : List Char) (e : CompErr) : Nat :=
  input.length - e.loc.length

/-! ## Diagnostics rendering (`error_at`) -/

/-- `fprintf(stderr, "%*s", w, s)`: print `s` right-justified in a field of
minimum width `w`.  When `w ≤ s.length` the string is printed as is. -/
def printfPad (w : Nat) (s : String) : String :=
  String.mk (List.replicate (w - s.length) ' ') ++ s

/-- The text of each diagnostic message in `9cc.c`. -/
def msgText : ErrMsg → String
  | .cantTokenize => "トークナイズできません"
  | .notANumber => "数ではありません"
  | .expectedChar op => "\x27" ++ String.mk [op] ++ "\x27ではありません"

/-- The two stderr lines produced by `error_at(loc, ...)`: the whole input,
then `fprintf(stderr, "%*s", pos, " ")` followed by `"^ "` and the message,
where `pos = loc - user_input`. -/
def error_at (input loc : List Char) (msg : String) : List String :=
  [String.mk input,
   printfPad (input.length - loc.length) " " ++ "^ " ++ msg]

/-- Number of space characters at the start of a rendered line. -/
def countLeadingSpaces (s : String) : Nat :=
  (s.toList.takeWhile (fun c => c == ' ')).length

/-! ## Execution semantics of the emitted listing

A minimal model of the target machine: `rax` is the result register
(`none` while uninitialized), directives and the label are inert, `mov`
sets it, `add`/`sub` adjust it with signed arithmetic, and `ret` yields it. -/

def execFrom : List Line → Option Int → Option Int
  | [], _ => none
  | Line.ret :: _, r => r
  | Line.mov n :: rest, _ => execFrom rest (some (n : Int))
  | Line.add n :: rest, r => execFrom rest (r.map (fun x => x + (n : Int)))
  | Line.sub n :: rest, r => execFrom rest (r.map (fun x => x - (n : Int)))
  | Line.intel :: rest, r => execFrom rest r
  | Line.globl :: rest, r => execFrom rest r
  | Line.label :: rest, r => execFrom rest r

/-- Execute an emitted listing from the entry point; `some v` is the value
returned to the caller (the process exit value of the compiled program). -/
def execAsm (ls : List Line) : Option Int :=
  execFrom ls none

/-! ## Well-formed chain inputs

`renderChain w0 d0 segs wend` is the general shape of a well-formed source
string: optional whitespace, a first digit run, then for each segment an
operator (with optional whitespace on either side) and a digit run, then
optional trailing whitespace.  This is the language
`number (('+' | '-') number)*` with arbitrary interleaved whitespace. -/

/-- One `('+' | '-') number` step of the grammar, with the whitespace
printed before the operator and before the number. -/
structure Seg where
  w1 : List Char
  op : Char
  w2 : List Char
  d : List Char

/-- Render the segments followed by the trailing whitespace. -/
def renderSegs (wend : List Char) : List Seg → List Char
  | [] => wend
  | sg :: rest => sg.w1 ++ sg.op :: (sg.w2 ++ (sg.d ++ renderSegs wend rest))

/-- Render a whole chain input. -/
def renderChain (w0 d0 : List Char) (segs : List Seg) (wend : List Char) : List Char :=
  w0 ++ (d0 ++ renderSegs wend segs)

/-- All characters are whitespace. -/
def WsOk (w : List Char) : Prop := ∀ c ∈ w, isspace c = true

/-- A non-empty run of ASCII digits. -/
def DigitsOk (d : List Char) : Prop := d ≠ [] ∧ ∀ c ∈ d, isdigit c = true

/-- A well-formed segment. -/
def SegOk (sg : Seg) : Prop :=
  WsOk sg.w1 ∧ (sg.op = '+' ∨ sg.op = '-') ∧ WsOk sg.w2 ∧ DigitsOk sg.d

/-- All segments well formed. -/
def SegsOk (segs : List Seg) : Prop := ∀ sg ∈ segs, SegOk sg

/-- The tokens the lexer produces for the segments (before the final
`TK_EOF`): one operator token and one number token per segment, each
carrying the input suffix it starts. -/
def segTokens (wend : List Char) : List Seg → List Token
  | [] => []
  | sg :: rest =>
    ⟨.TK_RESERVED, 0, sg.op :: (sg.w2 ++ (sg.d ++ renderSegs wend rest))⟩ ::
    ⟨.TK_NUM, parseDigits sg.d, sg.d ++ renderSegs wend rest⟩ ::
    segTokens wend rest

/-- The instruction lines the driving loop emits for the segments. -/
def segLines : List Seg → List Line
  | [] => []
  | sg :: rest =>
    (if sg.op = '+' then Line.add (parseDigits sg.d) else Line.sub (parseDigits sg.d)) ::
    segLines rest

/-- One step of left-to-right evaluation. -/
def chainStep (a : Int) (sg : Seg) : Int :=
  if sg.op = '+' then a + (parseDigits sg.d : Int) else a - (parseDigits sg.d : Int)

/-- Left-to-right evaluation of a chain: start from the first number and
fold the segments in input order. -/
def chainEval (d0 : List Char) (segs : List Seg) : Int :=
  segs.foldl chainStep (parseDigits d0 : Int)

/-! ## Decimal rendering (to give `parseDigits` its base-10 meaning) -/

/-- The digit character for a value `0..9`. -/
def decDigit : Nat → Char
  | 0 => '0'
  | 1 => '1'
  | 2 => '2'
  | 3 => '3'
  | 4 => '4'
  | 5 => '5'
  | 6 => '6'
  | 7 => '7'
  | 8 => '8'
  | _ => '9'

/-- Standard decimal rendering of a natural number (no leading zeros except
for `0` itself). -/
def natToDec (n : Nat) : List Char :=
  if n < 10 then [decDigit n]
  else natToDec (n / 10) ++ [decDigit (n % 10)]
termination_by n
decreasing_by
  exact Nat.div_lt_self (by omega) (by omega)

/-! ## Character-class facts and single-step equations for the lexer -/

theorem isdigit_char_ne {c d : Char} (h : isdigit c = true) (hd : isdigit d = false) :
    c ≠ d := fun e => by rw [e, hd] at h; cases h

theorem isdigit_not_isspace {c : Char} (h : isdigit c = true) : isspace c = false := by
  have h1 : c ≠ ' ' := isdigit_char_ne h (by decide)
  have h2 : c ≠ '\t' := isdigit_char_ne h (by decide)
  have h3 : c ≠ '\n' := isdigit_char_ne h (by decide)
  have h4 : c ≠ '\x0b' := isdigit_char_ne h (by decide)
  have h5 : c ≠ '\x0c' := isdigit_char_ne h (by decide)
  have h6 : c ≠ '\r' := isdigit_char_ne h (by decide)
  simp [isspace, h1, h2, h3, h4, h5, h6]

theorem isdigit_not_op {c : Char} (h : isdigit c = true) :
    (c == '+' || c == '-') = false := by
  have h1 : c ≠ '+' := isdigit_char_ne h (by decide)
  have h2 : c ≠ '-' := isdigit_char_ne h (by decide)
  simp [h1, h2]

theorem tok_nil : tokenize_aux [] = .ok [⟨.TK_EOF, 0, []⟩] := by
  simp [tokenize_aux]

theorem tok_space {c : Char} (s : List Char) (h : isspace c = true) :
    tokenize_aux (c :: s) = tokenize_aux s := by
  simp only [tokenize_aux]
  rw [dif_pos h]

theorem tok_op {c : Char} (s : List Char) (h : (c == '+' || c == '-') = true) :
    tokenize_aux (c :: s) =
      (tokenize_aux s).map (fun ts => ⟨.TK_RESERVED, 0, c :: s⟩ :: ts) := by
  have hc : c = '+' ∨ c = '-' := by simpa using h
  rcases hc with rfl | rfl <;> (simp only [tokenize_aux]; rfl)

theorem tok_digit {c : Char} (s : List Char) (h : isdigit c = true) :
    tokenize_aux (c :: s) =
      (tokenize_aux ((c :: s).dropWhile isdigit)).map
        (fun ts => ⟨.TK_NUM, parseDigits ((c :: s).takeWhile isdigit), c :: s⟩ :: ts) := by
  simp only [tokenize_aux]
  rw [dif_neg (by simp [isdigit_not_isspace h]),
    dif_neg (by simp [← Bool.or_eq_true, isdigit_not_op h]), dif_pos h]

theorem tok_bad {c : Char} (s : List Char) (h1 : isspace c = false)
    (h2 : (c == '+' || c == '-') = false) (h3 : isdigit c = false) :
    tokenize_aux (c :: s) = .error (c :: s) := by
  simp only [tokenize_aux]
  rw [dif_neg (by simp [h1]), dif_neg (by simp [← Bool.or_eq_true, h2]),
    dif_neg (by simp [h3])]

/-! ## Single-step equations for the driving loop -/

theorem mainLoop_eof {cursor : List Token} (h : at_eof cursor = true) :
    mainLoop cursor = ([], none) := by
  rw [mainLoop, if_pos h]

theorem mainLoop_plus_ok {w v : Nat} {s : List Char} {ts cur2 : List Token}
    (h : expect_number ts = .ok (v, cur2)) :
    mainLoop (⟨.TK_RESERVED, w, '+' :: s⟩ :: ts) =
      (Line.add v :: (mainLoop cur2).1, (mainLoop cur2).2) := by
  rw [mainLoop]
  rw [if_neg (by simp [at_eof])]
  split
  · rename_i cur h1
    simp [consume, strHead] at h1
    subst h1
    split
    · rename_i e he
      rw [h] at he
      cases he
    · rename_i v2 cur3 he
      rw [h] at he
      injection he with he2
      injection he2 with hv hc
      subst hv
      subst hc
      rfl
  · rename_i snd h1
    simp [consume, strHead] at h1

theorem mainLoop_plus_err {w : Nat} {s : List Char} {ts : List Token} {e : CompErr}
    (h : expect_number ts = .error e) :
    mainLoop (⟨.TK_RESERVED, w, '+' :: s⟩ :: ts) = ([], some e) := by
  rw [mainLoop]
  rw [if_neg (by simp [at_eof])]
  split
  · rename_i cur h1
    simp [consume, strHead] at h1
    subst h1
    split
    · rename_i e2 he
      rw [h] at he
      injection he with he2
      subst he2
      rfl
    · rename_i v2 cur3 he
      rw [h] at he
      cases he
  · rename_i snd h1
    simp [consume, strHead] at h1

theorem mainLoop_minus_ok {w v : Nat} {s : List Char} {ts cur2 : List Token}
    (h : expect_number ts = .ok (v, cur2)) :
    mainLoop (⟨.TK_RESERVED, w, '-' :: s⟩ :: ts) =
      (Line.sub v :: (mainLoop cur2).1, (mainLoop cur2).2) := by
  rw [mainLoop]
  rw [if_neg (by simp [at_eof])]
  split
  · rename_i cur h1
    simp [consume, strHead] at h1
  · rename_i snd h1
    split
    · rename_i e he
      simp [expect, strHead] at he
    · rename_i cur he
      simp [expect, strHead] at he
      subst he
      split
      · rename_i e2 he2
        rw [h] at he2
        cases he2
      · rename_i v2 cur3 he2
        rw [h] at he2
        injection he2 with he3
        injection he3 with hv hc
        subst hv
        subst hc
        rfl

theorem mainLoop_minus_err {w : Nat} {s : List Char} {ts : List Token} {e : CompErr}
    (h : expect_number ts = .error e) :
    mainLoop (⟨.TK_RESERVED, w, '-' :: s⟩ :: ts) = ([], some e) := by
  rw [mainLoop]
  rw [if_neg (by simp [at_eof])]
  split
  · rename_i cur h1
    simp [consume, strHead] at h1
  · rename_i snd h1
    split
    · rename_i e2 he
      simp [expect, strHead] at he
    · rename_i cur he
      simp [expect, strHead] at he
      subst he
      split
      · rename_i e2 he2
        rw [h] at he2
        injection he2 with he3
        subst he3
        rfl
      · rename_i v2 cur3 he2
        rw [h] at he2
        cases he2

/-- A `TK_NUM` token where the loop expects an operator: `consume('+')` and
`expect('-')` both fail, so the run dies with `'-'ではありません` there. -/
theorem mainLoop_misplaced_num {t : Token} {ts : List Token} (h : t.kind = .TK_NUM) :
    mainLoop (t :: ts) = ([], some ⟨t.str, .expectedChar '-'⟩) := by
  rw [mainLoop]
  rw [if_neg (by simp [at_eof, h])]
  split
  · rename_i cur h1
    simp [consume, h] at h1
  · rename_i snd h1
    split
    · rename_i e2 he
      simp [expect, h] at he
      rw [← he]
    · rename_i cur he
      simp [expect, h] at he

/-! ## Lexing a well-formed chain -/

theorem isspace_not_isdigit {c : Char} (h : isspace c = true) : isdigit c = false := by
  simp only [isspace, Bool.or_eq_true, beq_iff_eq] at h
  rcases h with ((((rfl | rfl) | rfl) | rfl) | rfl) | rfl <;> decide

theorem opchar_not_isdigit {c : Char} (h : c = '+' ∨ c = '-') : isdigit c = false := by
  rcases h with rfl | rfl <;> decide

/-- The list does not start with a digit (so a maximal digit run ends here). -/
def NonDigitHead : List Char → Prop
  | [] => True
  | c :: _ => isdigit c = false

theorem tok_ws : ∀ (w : List Char), WsOk w → ∀ s, tokenize_aux (w ++ s) = tokenize_aux s
  | [], _, _ => rfl
  | c :: w, hw, s => by
    have hc : isspace c = true := hw c (List.mem_cons_self c w)
    have hw' : WsOk w := fun x hx => hw x (List.mem_cons_of_mem c hx)
    rw [List.cons_append, tok_space _ hc, tok_ws w hw' s]

theorem takeWhile_digits_append :
    ∀ (d s : List Char), (∀ c ∈ d, isdigit c = true) → NonDigitHead s →
      (d ++ s).takeWhile isdigit = d ∧ (d ++ s).dropWhile isdigit = s
  | [], s, _, hs => by
    cases s with
    | nil => exact ⟨rfl, rfl⟩
    | cons c s' =>
      have hc : isdigit c = false := hs
      simp [List.takeWhile_cons, List.dropWhile_cons, hc]
  | c :: d, s, hd, hs => by
    have hc : isdigit c = true := hd c (List.mem_cons_self c d)
    have hd' : ∀ x ∈ d, isdigit x = true := fun x hx => hd x (List.mem_cons_of_mem c hx)
    have ih := takeWhile_digits_append d s hd' hs
    simp [List.takeWhile_cons, List.dropWhile_cons, hc, ih.1, ih.2]

theorem tok_digits {d : List Char} (s : List Char) (hd : DigitsOk d) (hs : NonDigitHead s) :
    tokenize_aux (d ++ s) =
      (tokenize_aux s).map (fun ts => ⟨.TK_NUM, parseDigits d, d ++ s⟩ :: ts) := by
  obtain ⟨hne, hall⟩ := hd
  match d, hne with
  | c :: d', _ =>
    have hc : isdigit c = true := hall c (List.mem_cons_self c d')
    have htw := takeWhile_digits_append (c :: d') s hall hs
    rw [List.cons_append, tok_digit _ hc, ← List.cons_append, htw.1, htw.2]

theorem nonDigitHead_renderSegs {segs : List Seg} {wend : List Char}
    (hsegs : SegsOk segs) (hw : WsOk wend) : NonDigitHead (renderSegs wend segs) := by
  cases segs with
  | nil =>
    cases wend with
    | nil => trivial
    | cons c w =>
      exact isspace_not_isdigit (hw c (List.mem_cons_self c w))
  | cons sg rest =>
    have hsg := hsegs sg (List.mem_cons_self sg rest)
    cases hw1 : sg.w1 with
    | nil =>
      have hr : renderSegs wend (sg :: rest) =
          sg.op :: (sg.w2 ++ (sg.d ++ renderSegs wend rest)) := by
        simp [renderSegs, hw1]
      rw [hr]
      exact opchar_not_isdigit hsg.2.1
    | cons c w1' =>
      have hr : renderSegs wend (sg :: rest) =
          c :: (w1' ++ sg.op :: (sg.w2 ++ (sg.d ++ renderSegs wend rest))) := by
        simp [renderSegs, hw1]
      rw [hr]
      exact isspace_not_isdigit (hsg.1 c (by rw [hw1]; exact List.mem_cons_self c w1'))

theorem tok_segs (wend : List Char) (hw : WsOk wend) :
    ∀ segs, SegsOk segs →
      tokenize_aux (renderSegs wend segs) = .ok (segTokens wend segs ++ [⟨.TK_EOF, 0, []⟩])
  | [], _ => by
    have h : renderSegs wend [] = wend ++ [] := by simp [renderSegs]
    rw [h, tok_ws wend hw [], tok_nil]
    rfl
  | sg :: rest, hsegs => by
    have hsg := hsegs sg (List.mem_cons_self sg rest)
    have hrest : SegsOk rest := fun x hx => hsegs x (List.mem_cons_of_mem sg hx)
    obtain ⟨hw1, hop, hw2, hd⟩ := hsg
    have hr : renderSegs wend (sg :: rest) =
        sg.w1 ++ (sg.op :: (sg.w2 ++ (sg.d ++ renderSegs wend rest))) := rfl
    rw [hr, tok_ws sg.w1 hw1,
      tok_op _ (by rcases hop with h | h <;> simp [h]),
      tok_ws sg.w2 hw2,
      tok_digits _ hd (nonDigitHead_renderSegs hrest hw),
      tok_segs wend hw rest hrest]
    rfl

theorem tok_chain {w0 d0 : List Char} {segs : List Seg} {wend : List Char}
    (h0 : WsOk w0) (hd : DigitsOk d0) (hs : SegsOk segs) (hw : WsOk wend) :
    tokenize (renderChain w0 d0 segs wend) =
      .ok (⟨.TK_NUM, parseDigits d0, d0 ++ renderSegs wend segs⟩ ::
        (segTokens wend segs ++ [⟨.TK_EOF, 0, []⟩])) := by
  show tokenize_aux (w0 ++ (d0 ++ renderSegs wend segs)) = _
  rw [tok_ws w0 h0, tok_digits _ hd (nonDigitHead_renderSegs hs hw),
    tok_segs wend hw segs hs]
  rfl

/-! ## Running the driving loop over a chain -/

theorem loop_segs (wend : List Char) :
    ∀ segs, SegsOk segs →
      mainLoop (segTokens wend segs ++ [⟨.TK_EOF, 0, []⟩]) = (segLines segs, none)
  | [], _ => by
    have h : at_eof (segTokens wend [] ++ [⟨.TK_EOF, 0, []⟩]) = true := by
      simp [segTokens, at_eof]
    rw [mainLoop_eof h]
    rfl
  | sg :: rest, hsegs => by
    have hsg := hsegs sg (List.mem_cons_self sg rest)
    have hrest : SegsOk rest := fun x hx => hsegs x (List.mem_cons_of_mem sg hx)
    have ih := loop_segs wend rest hrest
    have hen : expect_number
        (⟨.TK_NUM, parseDigits sg.d, sg.d ++ renderSegs wend rest⟩ ::
          (segTokens wend rest ++ [⟨.TK_EOF, 0, []⟩])) =
        .ok (parseDigits sg.d, segTokens wend rest ++ [⟨.TK_EOF, 0, []⟩]) := by
      simp [expect_number]
    have hc : segTokens wend (sg :: rest) ++ [⟨.TK_EOF, 0, []⟩] =
        ⟨.TK_RESERVED, 0, sg.op :: (sg.w2 ++ (sg.d ++ renderSegs wend rest))⟩ ::
        (⟨.TK_NUM, parseDigits sg.d, sg.d ++ renderSegs wend rest⟩ ::
          (segTokens wend rest ++ [⟨.TK_EOF, 0, []⟩])) := rfl
    rcases hsg.2.1 with h | h
    · rw [hc, h, mainLoop_plus_ok hen, ih]
      simp [segLines, h]
    · rw [hc, h, mainLoop_minus_ok hen, ih]
      simp [segLines, h]

/-- `main` on a well-formed chain: the full output listing, no error. -/
theorem main_chain {w0 d0 : List Char} {segs : List Seg} {wend : List Char}
    (h0 : WsOk w0) (hd : DigitsOk d0) (hs : SegsOk segs) (hw : WsOk wend) :
    main (renderChain w0 d0 segs wend) =
      ⟨prologue ++ Line.mov (parseDigits d0) :: (segLines segs ++ [Line.ret]), none⟩ := by
  rw [main, tok_chain h0 hd hs hw]
  have hen : expect_number
      (⟨.TK_NUM, parseDigits d0, d0 ++ renderSegs wend segs⟩ ::
        (segTokens wend segs ++ [⟨.TK_EOF, 0, []⟩])) =
      .ok (parseDigits d0, segTokens wend segs ++ [⟨.TK_EOF, 0, []⟩]) := by
    simp [expect_number]
  simp only [hen, loop_segs wend segs hs]
  simp

/-! ## Executing the emitted listing -/

theorem execFrom_segs : ∀ (segs : List Seg) (r : Int),
    execFrom (segLines segs ++ [Line.ret]) (some r) = some (segs.foldl chainStep r)
  | [], r => rfl
  | sg :: rest, r => by
    by_cases h : sg.op = '+' <;>
      simp [segLines, h, execFrom, chainStep, execFrom_segs rest]

/-- Executing the full chain listing yields the left-to-right evaluation. -/
theorem execAsm_chain (v : Nat) (segs : List Seg) :
    execAsm (prologue ++ Line.mov v :: (segLines segs ++ [Line.ret])) =
      some (segs.foldl chainStep (v : Int)) := by
  simp [execAsm, prologue, execFrom, execFrom_segs]

/-! ## Generic single-step equations for the loop (arbitrary cursor) -/

theorem mainLoop_step_plus {cursor cur cur2 : List Token} {v : Nat}
    (h0 : at_eof cursor = false) (h1 : consume '+' cursor = (true, cur))
    (h2 : expect_number cur = .ok (v, cur2)) :
    mainLoop cursor = (Line.add v :: (mainLoop cur2).1, (mainLoop cur2).2) := by
  rw [mainLoop, if_neg (by simp [h0])]
  split
  · rename_i cur' h1'
    rw [h1] at h1'
    injection h1' with hb hc
    subst hc
    split
    · rename_i e he
      rw [h2] at he
      cases he
    · rename_i v2 cur3 he
      rw [h2] at he
      injection he with he2
      injection he2 with hv hc2
      subst hv
      subst hc2
      rfl
  · rename_i snd h1'
    rw [h1] at h1'
    cases h1'

theorem mainLoop_step_plus_err {cursor cur : List Token} {e : CompErr}
    (h0 : at_eof cursor = false) (h1 : consume '+' cursor = (true, cur))
    (h2 : expect_number cur = .error e) :
    mainLoop cursor = ([], some e) := by
  rw [mainLoop, if_neg (by simp [h0])]
  split
  · rename_i cur' h1'
    rw [h1] at h1'
    injection h1' with hb hc
    subst hc
    split
    · rename_i e2 he
      rw [h2] at he
      injection he with he2
      subst he2
      rfl
    · rename_i v2 cur3 he
      rw [h2] at he
      cases he
  · rename_i snd h1'
    rw [h1] at h1'
    cases h1'

theorem mainLoop_step_minus {cursor cur cur2 : List Token} {snd : List Token} {v : Nat}
    (h0 : at_eof cursor = false) (h1 : consume '+' cursor = (false, snd))
    (h3 : expect '-' cursor = .ok cur) (h4 : expect_number cur = .ok (v, cur2)) :
    mainLoop cursor = (Line.sub v :: (mainLoop cur2).1, (mainLoop cur2).2) := by
  rw [mainLoop, if_neg (by simp [h0])]
  split
  · rename_i cur' h1'
    rw [h1] at h1'
    cases h1'
  · rename_i snd' h1'
    split
    · rename_i e he
      rw [h3] at he
      cases he
    · rename_i cur' he
      rw [h3] at he
      injection he with hc
      subst hc
      split
      · rename_i e2 he2
        rw [h4] at he2
        cases he2
      · rename_i v2 cur3 he2
        rw [h4] at he2
        injection he2 with he3
        injection he3 with hv hc2
        subst hv
        subst hc2
        rfl

theorem mainLoop_step_minus_err {cursor cur : List Token} {snd : List Token} {e : CompErr}
    (h0 : at_eof cursor = false) (h1 : consume '+' cursor = (false, snd))
    (h3 : expect '-' cursor = .ok cur) (h4 : expect_number cur = .error e) :
    mainLoop cursor = ([], some e) := by
  rw [mainLoop, if_neg (by simp [h0])]
  split
  · rename_i cur' h1'
    rw [h1] at h1'
    cases h1'
  · rename_i snd' h1'
    split
    · rename_i e2 he
      rw [h3] at he
      cases he
    · rename_i cur' he
      rw [h3] at he
      injection he with hc
      subst hc
      split
      · rename_i e2 he2
        rw [h4] at he2
        injection he2 with he3
        subst he3
        rfl
      · rename_i v2 cur3 he2
        rw [h4] at he2
        cases he2

theorem mainLoop_step_expect_err {cursor : List Token} {snd : List Token} {e : CompErr}
    (h0 : at_eof cursor = false) (h1 : consume '+' cursor = (false, snd))
    (h3 : expect '-' cursor = .error e) :
    mainLoop cursor = ([], some e) := by
  rw [mainLoop, if_neg (by simp [h0])]
  split
  · rename_i cur' h1'
    rw [h1] at h1'
    cases h1'
  · rename_i snd' h1'
    split
    · rename_i e2 he
      rw [h3] at he
      injection he with he2
      subst he2
      rfl
    · rename_i cur' he
      rw [h3] at he
      cases he

/-- Every line the loop itself prints is an `add` or a `sub`. -/
theorem mainLoop_lines (cursor : List Token) :
    ∀ l ∈ (mainLoop cursor).1, (∃ n, l = Line.add n) ∨ (∃ n, l = Line.sub n) := by
  induction cursor using mainLoop.induct with
  | case1 x h =>
    rw [mainLoop_eof h]
    simp
  | case2 x h0 cur h1 e h2 =>
    rw [mainLoop_step_plus_err (by simpa using h0) h1 h2]
    simp
  | case3 x h0 cur h1 v cur2 h2 ih =>
    rw [mainLoop_step_plus (by simpa using h0) h1 h2]
    intro l hl
    rcases List.mem_cons.mp hl with rfl | hl
    · exact Or.inl ⟨v, rfl⟩
    · exact ih l hl
  | case4 x h0 snd h1 e h3 =>
    rw [mainLoop_step_expect_err (by simpa using h0) h1 h3]
    simp
  | case5 x h0 snd h1 cur h3 e h4 =>
    rw [mainLoop_step_minus_err (by simpa using h0) h1 h3 h4]
    simp
  | case6 x h0 snd h1 cur h3 v cur2 h4 ih =>
    rw [mainLoop_step_minus (by simpa using h0) h1 h3 h4]
    intro l hl
    rcases List.mem_cons.mp hl with rfl | hl
    · exact Or.inr ⟨v, rfl⟩
    · exact ih l hl

/-! ## All-whitespace inputs -/

theorem tok_all_ws {input : List Char} (h : WsOk input) :
    tokenize input = .ok [⟨.TK_EOF, 0, []⟩] := by
  show tokenize_aux input = _
  rw [show input = input ++ [] from (List.append_nil input).symm, tok_ws input h [], tok_nil]

theorem main_all_ws {input : List Char} (h : WsOk input) :
    main input = ⟨prologue, some ⟨[], .notANumber⟩⟩ := by
  rw [main, tok_all_ws h]
  simp [expect_number]

/-! ## Base-10 meaning of `parseDigits` -/

theorem parseDigits_append_digit (xs : List Char) (c : Char) :
    parseDigits (xs ++ [c]) = parseDigits xs * 10 + digitVal c := by
  simp [parseDigits, List.foldl_append]

theorem digitVal_decDigit {r : Nat} (h : r < 10) : digitVal (decDigit r) = r := by
  interval_cases r <;> decide

theorem parseDigits_natToDec : ∀ n : Nat, parseDigits (natToDec n) = n
  | n => by
    by_cases h : n < 10
    · rw [natToDec, if_pos h]
      have : parseDigits [decDigit n] = digitVal (decDigit n) := by
        simp [parseDigits]
      rw [this, digitVal_decDigit h]
    · rw [natToDec, if_neg h, parseDigits_append_digit,
        parseDigits_natToDec (n / 10), digitVal_decDigit (Nat.mod_lt _ (by omega))]
      omega
termination_by n => n
decreasing_by
  exact Nat.div_lt_self (by omega) (by omega)

/-- `takeWhile` is the maximal prefix whose characters all satisfy `p`. -/
theorem prefix_takeWhile {p : Char → Bool} :
    ∀ (r l : List Char), r <+: l → (∀ c ∈ r, p c = true) → r <+: l.takeWhile p
  | [], _, _, _ => List.nil_prefix
  | c :: r, l, hpre, hall => by
    obtain ⟨t, rfl⟩ := hpre
    rw [List.cons_append, List.takeWhile_cons_of_pos (hall c (List.mem_cons_self c r))]
    exact List.cons_prefix_cons.mpr
      ⟨rfl, prefix_takeWhile r (r ++ t) (List.prefix_append r t)
        (fun x hx => hall x (List.mem_cons_of_mem c hx))⟩

/-! ## Exactly which inputs lex successfully -/

/-- A character the lexer can start a token from (or skip): whitespace, an
operator, or a digit. -/
def tokShape (c : Char) : Bool := isspace c || (c == '+' || c == '-') || isdigit c

/-- The lexer succeeds exactly when every character matches some token shape;
in particular whitespace never causes a lexical error. -/
theorem tok_ok_iff (s : List Char) :
    (∃ ts, tokenize_aux s = .ok ts) ↔ ∀ c ∈ s, tokShape c = true := by
  induction s using tokenize_aux.induct with
  | case1 => simp [tok_nil]
  | case2 c s hsp ih =>
    rw [tok_space _ hsp]
    constructor
    · intro h x hx
      rcases List.mem_cons.mp hx with rfl | hx
      · simp [tokShape, hsp]
      · exact (ih.mp h) x hx
    · intro h
      exact ih.mpr (fun x hx => h x (List.mem_cons_of_mem c hx))
  | case3 c s hsp hop ih =>
    rw [tok_op _ hop]
    constructor
    · rintro ⟨ts, hts⟩ x hx
      rcases List.mem_cons.mp hx with rfl | hx
      · simp [tokShape, hop]
      · refine (ih.mp ?_) x hx
        cases he : tokenize_aux s with
        | error l => rw [he] at hts; cases hts
        | ok ts0 => exact ⟨ts0, rfl⟩
    · intro h
      obtain ⟨ts0, hts0⟩ := ih.mpr (fun x hx => h x (List.mem_cons_of_mem c hx))
      exact ⟨_, by rw [hts0]; rfl⟩
  | case4 c s hsp hop hdig ih =>
    rw [tok_digit _ hdig]
    constructor
    · rintro ⟨ts, hts⟩ x hx
      have hex : ∃ ts0, tokenize_aux ((c :: s).dropWhile isdigit) = .ok ts0 := by
        cases he : tokenize_aux ((c :: s).dropWhile isdigit) with
        | error l => rw [he] at hts; cases hts
        | ok ts0 => exact ⟨ts0, rfl⟩
      have hdw := ih.mp hex
      rw [← List.takeWhile_append_dropWhile isdigit (c :: s)] at hx
      rcases List.mem_append.mp hx with hx | hx
      · simp [tokShape, List.mem_takeWhile_imp hx]
      · exact hdw x hx
    · intro h
      obtain ⟨ts0, hts0⟩ := ih.mpr
        (fun x hx => h x ((List.dropWhile_sublist isdigit).subset hx))
      exact ⟨_, by rw [hts0]; rfl⟩
  | case5 c s hsp hop hdig =>
    rw [tok_bad _ (by simpa using hsp) (by simpa using hop) (by simpa using hdig)]
    constructor
    · rintro ⟨ts, hts⟩
      cases hts
    · intro h
      have hc := h c (List.mem_cons_self c s)
      simp only [tokShape, Bool.or_eq_true] at hc
      rcases hc with (hc | hc) | hc
      · exact absurd hc hsp
      · exact absurd (Bool.or_eq_true _ _ ▸ hc) hop
      · exact absurd hc hdig

/-! ## Two adjacent numbers: lexes fine, rejected by the grammar -/

theorem main_two_nums {w0 d1 ws d2 wend : List Char}
    (h0 : WsOk w0) (hd1 : DigitsOk d1) (hws : WsOk ws) (hne : ws ≠ [])
    (hd2 : DigitsOk d2) (hw : WsOk wend) :
    tokenize (w0 ++ (d1 ++ (ws ++ (d2 ++ wend)))) = .ok
      [⟨.TK_NUM, parseDigits d1, d1 ++ (ws ++ (d2 ++ wend))⟩,
       ⟨.TK_NUM, parseDigits d2, d2 ++ wend⟩, ⟨.TK_EOF, 0, []⟩] ∧
    main (w0 ++ (d1 ++ (ws ++ (d2 ++ wend)))) =
      ⟨prologue ++ [Line.mov (parseDigits d1)], some ⟨d2 ++ wend, .expectedChar '-'⟩⟩ := by
  have hnd1 : NonDigitHead (ws ++ (d2 ++ wend)) := by
    cases ws with
    | nil => exact absurd rfl hne
    | cons c w =>
      show isdigit c = false
      exact isspace_not_isdigit (hws c (List.mem_cons_self c w))
  have hnd2 : NonDigitHead wend := by
    cases wend with
    | nil => trivial
    | cons c w => exact isspace_not_isdigit (hw c (List.mem_cons_self c w))
  have ht : tokenize (w0 ++ (d1 ++ (ws ++ (d2 ++ wend)))) = .ok
      [⟨.TK_NUM, parseDigits d1, d1 ++ (ws ++ (d2 ++ wend))⟩,
       ⟨.TK_NUM, parseDigits d2, d2 ++ wend⟩, ⟨.TK_EOF, 0, []⟩] := by
    show tokenize_aux _ = _
    rw [tok_ws w0 h0, tok_digits _ hd1 hnd1, tok_ws ws hws, tok_digits _ hd2 hnd2,
      show wend = wend ++ [] from (List.append_nil wend).symm, tok_ws wend hw, tok_nil]
    rfl
  refine ⟨ht, ?_⟩
  rw [main, ht]
  have hml : mainLoop [⟨.TK_NUM, parseDigits d2, d2 ++ wend⟩, ⟨.TK_EOF, 0, []⟩] =
      ([], some ⟨d2 ++ wend, .expectedChar '-'⟩) :=
    mainLoop_misplaced_num rfl
  have hen : expect_number
      [⟨.TK_NUM, parseDigits d1, d1 ++ (ws ++ (d2 ++ wend))⟩,
       ⟨.TK_NUM, parseDigits d2, d2 ++ wend⟩, ⟨.TK_EOF, 0, []⟩] =
      .ok (parseDigits d1, [⟨.TK_NUM, parseDigits d2, d2 ++ wend⟩, ⟨.TK_EOF, 0, []⟩]) := by
    simp [expect_number]
  simp only [hen, hml]

/-! ## Structural invariants of the token list -/

/-- Number of input characters a token covers: one for an operator, the
digit run for a number, zero for the end marker. -/
def tokWidth (t : Token) : Nat :=
  match t.kind with
  | .TK_RESERVED => 1
  | .TK_NUM => (t.str.takeWhile isdigit).length
  | .TK_EOF => 0

/-- Invariants of a successful scan of the suffix `s`: the token list is
non-empty and ends in exactly one `TK_EOF` token; every token's `str` is a
suffix of `s`; consecutive tokens strictly advance and do not overlap
(stated on suffix lengths); operator tokens hold `'+'` or `'-'` and a zeroed
`val`; number tokens start with a non-empty digit run whose parse is their
`val`. -/
theorem tok_inv (s : List Char) : ∀ ts, tokenize_aux s = .ok ts →
    ts ≠ [] ∧
    (∃ init, ts = init ++ [⟨.TK_EOF, 0, []⟩] ∧ ∀ t ∈ init, t.kind ≠ .TK_EOF) ∧
    (∀ t ∈ ts, t.str <:+ s) ∧
    List.Chain' (fun a b => b.str.length + tokWidth a ≤ a.str.length ∧
      b.str.length < a.str.length) ts ∧
    (∀ t ∈ ts, t.kind = .TK_RESERVED →
      (strHead t.str = '+' ∨ strHead t.str = '-') ∧ t.val = 0) ∧
    (∀ t ∈ ts, t.kind = .TK_NUM → t.str.takeWhile isdigit ≠ [] ∧
      t.val = parseDigits (t.str.takeWhile isdigit)) := by
  induction s using tokenize_aux.induct with
  | case1 =>
    intro ts h
    rw [tok_nil] at h
    injection h with h
    subst h
    refine ⟨by simp, ⟨[], rfl, by simp⟩, ?_, List.chain'_singleton _, ?_, ?_⟩
    · intro t ht
      rw [List.mem_singleton] at ht
      subst ht
      exact List.nil_suffix
    · intro t ht hk
      rw [List.mem_singleton] at ht
      subst ht
      cases hk
    · intro t ht hk
      rw [List.mem_singleton] at ht
      subst ht
      cases hk
  | case2 c s hsp ih =>
    intro ts h
    rw [tok_space _ hsp] at h
    obtain ⟨h1, h2, h3, h4, h5, h6⟩ := ih ts h
    exact ⟨h1, h2, fun t ht => (h3 t ht).trans (List.suffix_cons c s), h4, h5, h6⟩
  | case3 c s hsp hop ih =>
    intro ts h
    rw [tok_op _ hop] at h
    cases he : tokenize_aux s with
    | error l =>
      rw [he] at h
      cases h
    | ok ts0 =>
      rw [he] at h
      simp only [Except.map, Except.ok.injEq] at h
      subst h
      obtain ⟨h1, ⟨init0, hinit0, hinit0'⟩, h3, h4, h5, h6⟩ := ih ts0 he
      refine ⟨by simp, ⟨⟨.TK_RESERVED, 0, c :: s⟩ :: init0, by rw [hinit0]; rfl, ?_⟩,
        ?_, ?_, ?_, ?_⟩
      · intro t ht
        rcases List.mem_cons.mp ht with rfl | ht
        · intro hk
          cases hk
        · exact hinit0' t ht
      · intro t ht
        rcases List.mem_cons.mp ht with rfl | ht
        · exact List.suffix_refl _
        · exact (h3 t ht).trans (List.suffix_cons c s)
      · refine List.chain'_cons'.mpr ⟨?_, h4⟩
        intro y hy
        have hymem : y ∈ ts0 := by
          cases ts0 with
          | nil => simp at hy
          | cons t0 l0 =>
            simp only [List.head?_cons, Option.mem_some_iff] at hy
            subst hy
            exact List.mem_cons_self t0 l0
        have hylen : y.str.length ≤ s.length := (h3 y hymem).length_le
        have hw : tokWidth ⟨.TK_RESERVED, 0, c :: s⟩ = 1 := rfl
        rw [hw]
        simp only [List.length_cons]
        omega
      · intro t ht hk
        rcases List.mem_cons.mp ht with rfl | ht
        · refine ⟨?_, rfl⟩
          have hc : c = '+' ∨ c = '-' := by simpa using hop
          simpa [strHead] using hc
        · exact h5 t ht hk
      · intro t ht hk
        rcases List.mem_cons.mp ht with rfl | ht
        · cases hk
        · exact h6 t ht hk
  | case4 c s hsp hop hdig ih =>
    intro ts h
    rw [tok_digit _ hdig] at h
    cases he : tokenize_aux ((c :: s).dropWhile isdigit) with
    | error l =>
      rw [he] at h
      cases h
    | ok ts0 =>
      rw [he] at h
      simp only [Except.map, Except.ok.injEq] at h
      subst h
      obtain ⟨h1, ⟨init0, hinit0, hinit0'⟩, h3, h4, h5, h6⟩ := ih ts0 he
      have hlen : ((c :: s).takeWhile isdigit).length +
          ((c :: s).dropWhile isdigit).length = (c :: s).length := by
        rw [← List.length_append, List.takeWhile_append_dropWhile]
      have htw : (c :: s).takeWhile isdigit = c :: s.takeWhile isdigit :=
        List.takeWhile_cons_of_pos hdig
      refine ⟨by simp,
        ⟨⟨.TK_NUM, parseDigits ((c :: s).takeWhile isdigit), c :: s⟩ :: init0,
          by rw [hinit0]; rfl, ?_⟩, ?_, ?_, ?_, ?_⟩
      · intro t ht
        rcases List.mem_cons.mp ht with rfl | ht
        · intro hk
          cases hk
        · exact hinit0' t ht
      · intro t ht
        rcases List.mem_cons.mp ht with rfl | ht
        · exact List.suffix_refl _
        · exact (h3 t ht).trans (List.dropWhile_suffix isdigit)
      · refine List.chain'_cons'.mpr ⟨?_, h4⟩
        intro y hy
        have hymem : y ∈ ts0 := by
          cases ts0 with
          | nil => simp at hy
          | cons t0 l0 =>
            simp only [List.head?_cons, Option.mem_some_iff] at hy
            subst hy
            exact List.mem_cons_self t0 l0
        have hylen : y.str.length ≤ ((c :: s).dropWhile isdigit).length :=
          (h3 y hymem).length_le
        have hpos : 0 < ((c :: s).takeWhile isdigit).length := by
          rw [htw]
          simp
        show y.str.length + ((c :: s).takeWhile isdigit).length ≤ (c :: s).length ∧
          y.str.length < (c :: s).length
        omega
      · intro t ht hk
        rcases List.mem_cons.mp ht with rfl | ht
        · cases hk
        · exact h5 t ht hk
      · intro t ht hk
        rcases List.mem_cons.mp ht with rfl | ht
        · refine ⟨?_, rfl⟩
          rw [htw]
          simp
        · exact h6 t ht hk
  | case5 c s hsp hop hdig =>
    intro ts h
    rw [tok_bad _ (by simpa using hsp) (by simpa using hop) (by simpa using hdig)] at h
    cases h

/-- Transport a chain relation along pointwise information about members. -/
theorem chain'_imp {α : Type} {R S : α → α → Prop} (C : α → Prop) :
    ∀ {l : List α}, (∀ x ∈ l, C x) → (∀ a b, C a → C b → R a b → S a b) →
      List.Chain' R l → List.Chain' S l
  | [], _, _, _ => List.chain'_nil
  | [a], _, _, _ => List.chain'_singleton a
  | a :: b :: l, hC, hRS, hch => by
    rw [List.chain'_cons] at hch ⊢
    exact ⟨hRS a b (hC a (by simp)) (hC b (by simp)) hch.1,
      chain'_imp C (fun x hx => hC x (List.mem_cons_of_mem a hx)) hRS hch.2⟩

/-! ## Decidability of the chain side conditions -/

instance (w : List Char) : Decidable (WsOk w) :=
  inferInstanceAs (Decidable (∀ c ∈ w, isspace c = true))

instance (d : List Char) : Decidable (DigitsOk d) :=
  inferInstanceAs (Decidable (d ≠ [] ∧ ∀ c ∈ d, isdigit c = true))

instance (sg : Seg) : Decidable (SegOk sg) :=
  inferInstanceAs (Decidable (_ ∧ _ ∧ _ ∧ _))

instance (segs : List Seg) : Decidable (SegsOk segs) :=
  inferInstanceAs (Decidable (∀ sg ∈ segs, SegOk sg))

/-! ## Concrete runs used by the claims -/

theorem main_star : main ("*".toList) = ⟨[], some ⟨['*'], .cantTokenize⟩⟩ := by
  have ht : tokenize ("*".toList) = .error ['*'] :=
    tok_bad [] (by decide) (by decide) (by decide)
  rw [main, ht]

theorem main_plus_only : main ("+".toList) = ⟨prologue, some ⟨['+'], .notANumber⟩⟩ := by
  have ht : tokenize ("+".toList) = .ok [⟨.TK_RESERVED, 0, ['+']⟩, ⟨.TK_EOF, 0, []⟩] := by
    simp [tokenize, tok_op, tok_nil, isspace, isdigit, Except.map]
  rw [main, ht]
  simp [expect_number]

theorem main_one_plus :
    main ("1 +".toList) = ⟨prologue ++ [Line.mov 1], some ⟨[], .notANumber⟩⟩ := by
  have ht : tokenize ("1 +".toList) = .ok
      [⟨.TK_NUM, 1, ['1', ' ', '+']⟩, ⟨.TK_RESERVED, 0, ['+']⟩, ⟨.TK_EOF, 0, []⟩] := by
    simp [tokenize, tok_space, tok_digit, tok_op, tok_nil, isspace, isdigit, parseDigits,
      digitVal, List.dropWhile, List.takeWhile, Except.map]
  have hml : mainLoop [⟨.TK_RESERVED, 0, ['+']⟩, ⟨.TK_EOF, 0, []⟩] =
      ([], some ⟨[], .notANumber⟩) :=
    mainLoop_plus_err (by simp [expect_number])
  rw [main, ht]
  have hen : expect_number
      [⟨.TK_NUM, 1, ['1', ' ', '+']⟩, ⟨.TK_RESERVED, 0, ['+']⟩, ⟨.TK_EOF, 0, []⟩] =
      .ok (1, [⟨.TK_RESERVED, 0, ['+']⟩, ⟨.TK_EOF, 0, []⟩]) := by
    simp [expect_number]
  simp only [hen, hml]

theorem main_one_plus_plus_two : main ("1 + + 2".toList) =
    ⟨prologue ++ [Line.mov 1], some ⟨['+', ' ', '2'], .notANumber⟩⟩ := by
  have ht : tokenize ("1 + + 2".toList) = .ok
      [⟨.TK_NUM, 1, ['1', ' ', '+', ' ', '+', ' ', '2']⟩,
       ⟨.TK_RESERVED, 0, ['+', ' ', '+', ' ', '2']⟩,
       ⟨.TK_RESERVED, 0, ['+', ' ', '2']⟩, ⟨.TK_NUM, 2, ['2']⟩, ⟨.TK_EOF, 0, []⟩] := by
    simp [tokenize, tok_space, tok_digit, tok_op, tok_nil, isspace, isdigit, parseDigits,
      digitVal, List.dropWhile, List.takeWhile, Except.map]
  have hml : mainLoop
      [⟨.TK_RESERVED, 0, ['+', ' ', '+', ' ', '2']⟩,
       ⟨.TK_RESERVED, 0, ['+', ' ', '2']⟩, ⟨.TK_NUM, 2, ['2']⟩, ⟨.TK_EOF, 0, []⟩] =
      ([], some ⟨['+', ' ', '2'], .notANumber⟩) :=
    mainLoop_plus_err (by simp [expect_number])
  rw [main, ht]
  have hen : expect_number
      [⟨.TK_NUM, 1, ['1', ' ', '+', ' ', '+', ' ', '2']⟩,
       ⟨.TK_RESERVED, 0, ['+', ' ', '+', ' ', '2']⟩,
       ⟨.TK_RESERVED, 0, ['+', ' ', '2']⟩, ⟨.TK_NUM, 2, ['2']⟩, ⟨.TK_EOF, 0, []⟩] =
      .ok (1, [⟨.TK_RESERVED, 0, ['+', ' ', '+', ' ', '2']⟩,
        ⟨.TK_RESERVED, 0, ['+', ' ', '2']⟩, ⟨.TK_NUM, 2, ['2']⟩, ⟨.TK_EOF, 0, []⟩]) := by
    simp [expect_number]
  simp only [hen, hml]

/-! ## The claims -/

/-- C1: for every input made of whitespace-separated non-negative integer
literals chained by binary `+` and `-`, the program exits normally (status 0)
and executing the emitted instruction sequence yields the left-to-right
evaluation of the expression; in particular `"1 + 2 - 3"` yields `0` and
`"5 - 20"` yields `-15`.  (The model computes with unbounded integers, so no
range side condition is needed; on literals within the host `int` range this
agrees with the C program.) -/
theorem claim1_left_to_right_eval (w0 d0 : List Char) (segs : List Seg) (wend : List Char)
    (h0 : WsOk w0) (hd : DigitsOk d0) (hs : SegsOk segs) (hw : WsOk wend) :
    (main (renderChain w0 d0 segs wend)).err = none ∧
    exitCode (main (renderChain w0 d0 segs wend)) = 0 ∧
    execAsm (main (renderChain w0 d0 segs wend)).out = some (chainEval d0 segs) ∧
    (main ("1 + 2 - 3".toList)).err = none ∧
    execAsm (main ("1 + 2 - 3".toList)).out = some 0 ∧
    (main ("5 - 20".toList)).err = none ∧
    execAsm (main ("5 - 20".toList)).out = some (-15) := by
  have hm := main_chain h0 hd hs hw
  have e1 : ("1 + 2 - 3".toList) = renderChain [] ['1']
      [⟨[' '], '+', [' '], ['2']⟩, ⟨[' '], '-', [' '], ['3']⟩] [] := rfl
  have e2 : ("5 - 20".toList) = renderChain [] ['5'] [⟨[' '], '-', [' '], ['2', '0']⟩] [] := rfl
  have hm1 : main (renderChain [] ['1'] [⟨[' '], '+', [' '], ['2']⟩, ⟨[' '], '-', [' '], ['3']⟩] []) =
      ⟨prologue ++ Line.mov (parseDigits ['1']) ::
        (segLines [⟨[' '], '+', [' '], ['2']⟩, ⟨[' '], '-', [' '], ['3']⟩] ++ [Line.ret]), none⟩ :=
    main_chain (by decide) (by decide) (by decide) (by decide)
  have hm2 : main (renderChain [] ['5'] [⟨[' '], '-', [' '], ['2', '0']⟩] []) =
      ⟨prologue ++ Line.mov (parseDigits ['5']) ::
        (segLines [⟨[' '], '-', [' '], ['2', '0']⟩] ++ [Line.ret]), none⟩ :=
    main_chain (by decide) (by decide) (by decide) (by decide)
  refine ⟨by rw [hm], by rw [hm]; rfl, ?_, by rw [e1, hm1], ?_, by rw [e2, hm2], ?_⟩
  · rw [hm]
    exact execAsm_chain (parseDigits d0) segs
  · rw [e1, hm1]
    decide
  · rw [e2, hm2]
    decide

/-- Witness for C1 at the concrete chain `"9 + 1"`. -/
theorem claim1_witness :
    WsOk [] ∧ DigitsOk ['9'] ∧ SegsOk [⟨[' '], '+', [' '], ['1']⟩] ∧
    ((main (renderChain [] ['9'] [⟨[' '], '+', [' '], ['1']⟩] [])).err = none ∧
     exitCode (main (renderChain [] ['9'] [⟨[' '], '+', [' '], ['1']⟩] [])) = 0 ∧
     execAsm (main (renderChain [] ['9'] [⟨[' '], '+', [' '], ['1']⟩] [])).out =
       some (chainEval ['9'] [⟨[' '], '+', [' '], ['1']⟩]) ∧
     (main ("1 + 2 - 3".toList)).err = none ∧
     execAsm (main ("1 + 2 - 3".toList)).out = some 0 ∧
     (main ("5 - 20".toList)).err = none ∧
     execAsm (main ("5 - 20".toList)).out = some (-15)) :=
  ⟨by decide, by decide, by decide,
   claim1_left_to_right_eval [] ['9'] [⟨[' '], '+', [' '], ['1']⟩] []
     (by decide) (by decide) (by decide) (by decide)⟩

/-- C5 (code bug at offset 0): the caret line is `fprintf(stderr, "%*s", pos,
" ")` followed by `"^ "` and the message.  `%*s` right-justifies the
one-character string `" "`, so it prints `max pos 1` spaces, not `pos`: for a
positioned error at byte offset 0 (input `"*"`, lexical error at its first
character) one space precedes the caret where the claim requires zero.  The
code's own comment (`pos個の空白を出力`, line 43) documents the intent of
exactly `pos` spaces.  For offsets ≥ 1 the claim holds, e.g. `"1 + *"`:
caret at offset 4 with exactly 4 leading spaces, exit status 1. -/
theorem claim5_caret_pad_bug :
    main ("*".toList) = ⟨[], some ⟨['*'], .cantTokenize⟩⟩ ∧
    exitCode (main ("*".toList)) = 1 ∧
    errPos ("*".toList) ⟨['*'], .cantTokenize⟩ = 0 ∧
    countLeadingSpaces ((error_at ("*".toList) ['*'] (msgText .cantTokenize)).getD 1 "") = 1 ∧
    main ("1 + *".toList) = ⟨[], some ⟨['*'], .cantTokenize⟩⟩ ∧
    exitCode (main ("1 + *".toList)) = 1 ∧
    errPos ("1 + *".toList) ⟨['*'], .cantTokenize⟩ = 4 ∧
    countLeadingSpaces ((error_at ("1 + *".toList) ['*'] (msgText .cantTokenize)).getD 1 "") = 4 := by
  have ht : tokenize ("1 + *".toList) = .error ['*'] := by
    simp [tokenize, tok_space, tok_digit, tok_op, tok_bad, isspace, isdigit,
      List.dropWhile, List.takeWhile, Except.map]
  have hm : main ("1 + *".toList) = ⟨[], some ⟨['*'], .cantTokenize⟩⟩ := by
    rw [main, ht]
  exact ⟨main_star, by rw [main_star]; rfl, by decide, by decide, hm, by rw [hm]; rfl, by decide, by decide⟩

/-- C6: on a digit the lexer emits exactly one `Number` token whose value is
the base-10 parse of the maximal digit run starting there and the scan
advances past that run; whitespace is skipped without emitting a token.
`takeWhile isdigit` is the maximal digit run (every all-digit prefix is a
prefix of it), and `parseDigits` really is base-10 parsing (it inverts
decimal rendering). -/
theorem claim6_digit_scan :
    (∀ (c : Char) (s : List Char), isdigit c = true →
      tokenize_aux (c :: s) =
        (tokenize_aux ((c :: s).dropWhile isdigit)).map
          (fun ts => ⟨.TK_NUM, parseDigits ((c :: s).takeWhile isdigit), c :: s⟩ :: ts)) ∧
    (∀ (c : Char) (s : List Char), isspace c = true → tokenize_aux (c :: s) = tokenize_aux s) ∧
    (∀ r l : List Char, r <+: l → (∀ c ∈ r, isdigit c = true) → r <+: l.takeWhile isdigit) ∧
    (∀ n : Nat, parseDigits (natToDec n) = n) :=
  ⟨fun _ s h => tok_digit s h, fun _ s h => tok_space s h,
   fun r l hp hall => prefix_takeWhile r l hp hall, parseDigits_natToDec⟩

/-- Witness for C6 at digit `'4'`, input `"42"`, and value `42`. -/
theorem claim6_witness :
    isdigit '4' = true ∧ isspace ' ' = true ∧
    tokenize_aux ['4', '2'] =
      (tokenize_aux (['4', '2'].dropWhile isdigit)).map
        (fun ts => ⟨.TK_NUM, parseDigits (['4', '2'].takeWhile isdigit), ['4', '2']⟩ :: ts) ∧
    tokenize_aux [' ', '7'] = tokenize_aux ['7'] ∧
    ['4'] <+: ['4', '2', '+'].takeWhile isdigit ∧
    parseDigits (natToDec 42) = 42 :=
  ⟨by decide, by decide, claim6_digit_scan.1 '4' ['2'] (by decide),
   claim6_digit_scan.2.1 ' ' ['7'] (by decide),
   claim6_digit_scan.2.2.1 ['4'] ['4', '2', '+'] (by decide) (by decide),
   claim6_digit_scan.2.2.2 42⟩

/-- C7: `consume` is pure in the model (the cursor is its only state); it
returns `false` and leaves the cursor unchanged unless the current token is
an operator token carrying exactly the argument character, in which case it
advances the cursor by one token and returns `true`. -/
theorem claim7_consume_frame (op : Char) (t : Token) (ts : List Token) :
    (¬(t.kind = .TK_RESERVED ∧ strHead t.str = op) →
      consume op (t :: ts) = (false, t :: ts)) ∧
    ((t.kind = .TK_RESERVED ∧ strHead t.str = op) →
      consume op (t :: ts) = (true, ts)) := by
  constructor
  · intro h
    have hc : ¬((t.kind == TokenKind.TK_RESERVED && strHead t.str == op) = true) := by
      intro hc
      simp only [Bool.and_eq_true, beq_iff_eq] at hc
      exact h hc
    simp only [consume]
    rw [if_neg hc]
  · intro h
    have hc : (t.kind == TokenKind.TK_RESERVED && strHead t.str == op) = true := by
      simp only [Bool.and_eq_true, beq_iff_eq]
      exact h
    simp only [consume]
    rw [if_pos hc]

/-- Witness for C7: a number token is not consumed (cursor unchanged), a
matching `'+'` token is consumed (cursor advanced one token). -/
theorem claim7_witness :
    (¬((⟨.TK_NUM, 5, ['7']⟩ : Token).kind = .TK_RESERVED ∧ strHead ['7'] = '+') ∧
      consume '+' [⟨.TK_NUM, 5, ['7']⟩] = (false, [⟨.TK_NUM, 5, ['7']⟩])) ∧
    (((⟨.TK_RESERVED, 0, ['+']⟩ : Token).kind = .TK_RESERVED ∧ strHead ['+'] = '+') ∧
      consume '+' [⟨.TK_RESERVED, 0, ['+']⟩, ⟨.TK_EOF, 0, []⟩] = (true, [⟨.TK_EOF, 0, []⟩])) :=
  ⟨⟨by decide, (claim7_consume_frame '+' ⟨.TK_NUM, 5, ['7']⟩ []).1 (by decide)⟩,
   ⟨by decide, (claim7_consume_frame '+' ⟨.TK_RESERVED, 0, ['+']⟩ [⟨.TK_EOF, 0, []⟩]).2 (by decide)⟩⟩

/-- C8: `expect_number` dies with a positioned "not a number" diagnostic at
the current token unless it is a `Number` token, in which case it returns the
value and advances; consequently `"1 + + 2"` exits with status 1 with the
error at byte offset 4, the second `'+'`. -/
theorem claim8_expect_number (t : Token) (ts : List Token) :
    (t.kind ≠ .TK_NUM → expect_number (t :: ts) = .error ⟨t.str, .notANumber⟩) ∧
    (t.kind = .TK_NUM → expect_number (t :: ts) = .ok (t.val, ts)) ∧
    (main ("1 + + 2".toList)).err = some ⟨['+', ' ', '2'], .notANumber⟩ ∧
    errPos ("1 + + 2".toList) ⟨['+', ' ', '2'], .notANumber⟩ = 4 ∧
    exitCode (main ("1 + + 2".toList)) = 1 := by
  refine ⟨?_, ?_, by rw [main_one_plus_plus_two], by decide, by rw [main_one_plus_plus_two]; rfl⟩
  · intro h
    have hc : ¬((t.kind == TokenKind.TK_NUM) = true) := by
      intro hc
      exact h (by simpa using hc)
    simp only [expect_number]
    rw [if_neg hc]
  · intro h
    simp only [expect_number]
    rw [if_pos (by simpa using h)]

/-- Witness for C8: the mismatch branch at an operator token, the match
branch at a number token. -/
theorem claim8_witness :
    ((⟨.TK_RESERVED, 0, ['+']⟩ : Token).kind ≠ .TK_NUM ∧
      expect_number [⟨.TK_RESERVED, 0, ['+']⟩] = .error ⟨['+'], .notANumber⟩) ∧
    ((⟨.TK_NUM, 7, ['7']⟩ : Token).kind = .TK_NUM ∧
      expect_number [⟨.TK_NUM, 7, ['7']⟩] = .ok (7, [])) :=
  ⟨⟨by decide, (claim8_expect_number ⟨.TK_RESERVED, 0, ['+']⟩ []).1 (by decide)⟩,
   ⟨by decide, (claim8_expect_number ⟨.TK_NUM, 7, ['7']⟩ []).2.1 (by decide)⟩⟩

/-- C10: on the empty input, and on any all-whitespace input, the lexer
succeeds with just the `TK_EOF` token, and the program dies with the
"not a number" grammar error positioned at the end of the input (exit status
1) in the first `expect_number`, before the driving loop runs — its output is
only the three header lines, no instructions. -/
theorem claim10_empty_input (input : List Char) (h : WsOk input) :
    tokenize input = .ok [⟨.TK_EOF, 0, []⟩] ∧
    main input = ⟨prologue, some ⟨[], .notANumber⟩⟩ ∧
    errPos input ⟨[], .notANumber⟩ = input.length ∧
    exitCode (main input) = 1 ∧
    ∀ l ∈ (main input).out, isInstr l = false := by
  refine ⟨tok_all_ws h, main_all_ws h, by simp [errPos], by rw [main_all_ws h]; rfl, ?_⟩
  rw [main_all_ws h]
  decide

/-- Witness for C10 at the all-whitespace input `" "` (and the conclusions it
yields there). -/
theorem claim10_witness :
    WsOk [' '] ∧
    (tokenize [' '] = .ok [⟨.TK_EOF, 0, []⟩] ∧
     main [' '] = ⟨prologue, some ⟨[], .notANumber⟩⟩ ∧
     errPos [' '] ⟨[], .notANumber⟩ = [' '].length ∧
     exitCode (main [' ']) = 1 ∧
     ∀ l ∈ (main [' ']).out, isInstr l = false) :=
  ⟨by decide, claim10_empty_input [' '] (by decide)⟩

/-- C2 counterexample: the claim "no instructions are ever emitted for a
malformed input … a lexical or grammar error on the very first token prevents
all output to standard output" is false on the code.  For the malformed input
`"1 +"` the program emits the instruction `mov rax, 1` before dying, and for
`"+"` (a grammar error on the very first token) the three header lines have
already been printed, so standard output is not empty. -/
theorem claim2_counterexample :
    (main ("1 +".toList)).err ≠ none ∧
    Line.mov 1 ∈ (main ("1 +".toList)).out ∧
    isInstr (Line.mov 1) = true ∧
    (main ("+".toList)).err ≠ none ∧
    (main ("+".toList)).out ≠ [] := by
  rw [main_one_plus, main_plus_only]
  refine ⟨by simp, ?_, by decide, by simp, by decide⟩
  simp [prologue]

/-- C2 amended: a lexical error prevents all standard output; a grammar
error at the very first token (the first `expect_number` failing) prevents
all instruction output — only the three header directive/label lines have
been printed.  (A grammar error later in the input can follow
already-emitted instructions, as the counterexample shows.) -/
theorem claim2_amended (input : List Char) :
    (∀ loc, tokenize input = .error loc →
      main input = ⟨[], some ⟨loc, .cantTokenize⟩⟩) ∧
    (∀ ts e, tokenize input = .ok ts → expect_number ts = .error e →
      main input = ⟨prologue, some e⟩ ∧ ∀ l ∈ (main input).out, isInstr l = false) := by
  constructor
  · intro loc h
    rw [main, h]
  · intro ts e h1 h2
    have hm : main input = ⟨prologue, some e⟩ := by
      rw [main, h1]
      simp only [h2]
    refine ⟨hm, ?_⟩
    rw [hm]
    show ∀ l ∈ prologue, isInstr l = false
    decide

/-- Witness for the amended C2 at the first-token grammar error `"+"` (and,
for the lexical half, at `"*"`). -/
theorem claim2_amended_witness :
    (tokenize ("*".toList) = .error ['*'] ∧
      main ("*".toList) = ⟨[], some ⟨['*'], .cantTokenize⟩⟩) ∧
    (tokenize ("+".toList) = .ok [⟨.TK_RESERVED, 0, ['+']⟩, ⟨.TK_EOF, 0, []⟩] ∧
      expect_number [⟨.TK_RESERVED, 0, ['+']⟩, ⟨.TK_EOF, 0, []⟩] =
        .error ⟨['+'], .notANumber⟩ ∧
      main ("+".toList) = ⟨prologue, some ⟨['+'], .notANumber⟩⟩ ∧
      ∀ l ∈ (main ("+".toList)).out, isInstr l = false) := by
  have ht1 : tokenize ("*".toList) = .error ['*'] :=
    tok_bad [] (by decide) (by decide) (by decide)
  have ht2 : tokenize ("+".toList) = .ok [⟨.TK_RESERVED, 0, ['+']⟩, ⟨.TK_EOF, 0, []⟩] := by
    simp [tokenize, tok_op, tok_nil, isspace, isdigit, Except.map]
  have h2 := (claim2_amended ("+".toList)).2
    [⟨.TK_RESERVED, 0, ['+']⟩, ⟨.TK_EOF, 0, []⟩] ⟨['+'], .notANumber⟩ ht2 rfl
  exact ⟨⟨ht1, (claim2_amended ("*".toList)).1 ['*'] ht1⟩, ⟨ht2, rfl, h2.1, h2.2⟩⟩

/-- C3: on success, stdout is exactly the syntax-mode directive, the
global-symbol directive, the entry label, one load (`mov`) of the first
number, one `add`/`sub` per subsequent number in input order, then one `ret`;
for `"42"` the output holds exactly one load and one return instruction and
executes to `42`. -/
theorem claim3_output_shape :
    (∀ input ls, main input = ⟨ls, none⟩ →
      ∃ v body, ls = prologue ++ Line.mov v :: (body ++ [Line.ret]) ∧
        ∀ l ∈ body, (∃ n, l = Line.add n) ∨ (∃ n, l = Line.sub n)) ∧
    (∀ w0 d0 segs wend, WsOk w0 → DigitsOk d0 → SegsOk segs → WsOk wend →
      (main (renderChain w0 d0 segs wend)).out =
        prologue ++ Line.mov (parseDigits d0) :: (segLines segs ++ [Line.ret])) ∧
    (main ("42".toList) =
      ⟨[Line.intel, Line.globl, Line.label, Line.mov 42, Line.ret], none⟩ ∧
     ((main ("42".toList)).out.countP
        (fun l => match l with | Line.mov _ => true | _ => false)) = 1 ∧
     ((main ("42".toList)).out.countP (fun l => l == Line.ret)) = 1 ∧
     execAsm (main ("42".toList)).out = some 42) := by
  have h42 : main ("42".toList) =
      ⟨[Line.intel, Line.globl, Line.label, Line.mov 42, Line.ret], none⟩ := by
    have e : ("42".toList) = renderChain [] ['4', '2'] [] [] := rfl
    have hm : main (renderChain [] ['4', '2'] [] []) =
        ⟨prologue ++ Line.mov (parseDigits ['4', '2']) :: (segLines [] ++ [Line.ret]), none⟩ :=
      main_chain (by decide) (by decide) (by decide) (by decide)
    rw [e, hm]
    rfl
  refine ⟨?_, ?_, h42, by rw [h42]; decide, by rw [h42]; decide, by rw [h42]; decide⟩
  · intro input ls h
    rw [main] at h
    cases htok : tokenize input with
    | error loc =>
      rw [htok] at h
      simp at h
    | ok toks =>
      rw [htok] at h
      cases hen : expect_number toks with
      | error e =>
        simp only [hen] at h
        simp at h
      | ok vc =>
        obtain ⟨v, cur⟩ := vc
        simp only [hen] at h
        cases hml : mainLoop cur with
        | mk ls0 err0 =>
          cases err0 with
          | some e =>
            simp only [hml] at h
            simp at h
          | none =>
            simp only [hml] at h
            have hls : ls = prologue ++ Line.mov v :: (ls0 ++ [Line.ret]) := by
              have := congrArg RunResult.out h
              simpa using this.symm
            refine ⟨v, ls0, hls, ?_⟩
            have hlines := mainLoop_lines cur
            rw [hml] at hlines
            exact hlines
  · intro w0 d0 segs wend h0 hd hs hw
    rw [main_chain h0 hd hs hw]

/-- Witness for C3: the success-shape part applied to the run on `"42"`, and
the ordering part at the concrete chain `"4 - 2"`. -/
theorem claim3_witness :
    (∃ v body,
      ([Line.intel, Line.globl, Line.label, Line.mov 42, Line.ret] : List Line) =
        prologue ++ Line.mov v :: (body ++ [Line.ret]) ∧
      ∀ l ∈ body, (∃ n, l = Line.add n) ∨ (∃ n, l = Line.sub n)) ∧
    (main (renderChain [] ['4'] [⟨[' '], '-', [' '], ['2']⟩] [])).out =
      prologue ++ Line.mov (parseDigits ['4']) ::
        (segLines [⟨[' '], '-', [' '], ['2']⟩] ++ [Line.ret]) :=
  ⟨claim3_output_shape.1 ("42".toList) _ claim3_output_shape.2.2.1,
   claim3_output_shape.2.1 [] ['4'] [⟨[' '], '-', [' '], ['2']⟩] []
     (by decide) (by decide) (by decide) (by decide)⟩

/-- C4: the token list of a successful scan is non-empty and ends in exactly
one `TK_EOF` token positioned at the buffer's end offset; token byte offsets
strictly increase left to right and token extents do not overlap; operator
tokens cover exactly one character, which is `'+'` or `'-'`, and carry no
numeric value (`val = 0`). -/
theorem claim4_token_invariants (input : List Char) (ts : List Token)
    (h : tokenize input = .ok ts) :
    ts ≠ [] ∧
    (∃ init, ts = init ++ [⟨.TK_EOF, 0, []⟩] ∧ (∀ t ∈ init, t.kind ≠ .TK_EOF) ∧
      tokPos input ⟨.TK_EOF, 0, []⟩ = input.length) ∧
    List.Chain' (fun a b => tokPos input a + tokWidth a ≤ tokPos input b ∧
      tokPos input a < tokPos input b) ts ∧
    (∀ t ∈ ts, t.kind = .TK_RESERVED → tokWidth t = 1 ∧
      (strHead t.str = '+' ∨ strHead t.str = '-') ∧ t.val = 0) := by
  obtain ⟨h1, ⟨init, hinit, hinitEOF⟩, h3, h4, h5, h6⟩ := tok_inv input ts h
  refine ⟨h1, ⟨init, hinit, hinitEOF, by simp [tokPos]⟩, ?_, ?_⟩
  · refine chain'_imp (fun t => t.str.length ≤ input.length)
      (fun x hx => (h3 x hx).length_le) ?_ h4
    intro a b ha hb hr
    obtain ⟨hr1, hr2⟩ := hr
    constructor
    · show input.length - a.str.length + tokWidth a ≤ input.length - b.str.length
      omega
    · show input.length - a.str.length < input.length - b.str.length
      omega
  · intro t ht hk
    exact ⟨by simp [tokWidth, hk], h5 t ht hk⟩

/-- Witness for C4 at the input `"1 + 2"`. -/
theorem claim4_witness :
    tokenize ("1 + 2".toList) = .ok
      [⟨.TK_NUM, 1, ['1', ' ', '+', ' ', '2']⟩, ⟨.TK_RESERVED, 0, ['+', ' ', '2']⟩,
       ⟨.TK_NUM, 2, ['2']⟩, ⟨.TK_EOF, 0, []⟩] ∧
    ([⟨.TK_NUM, 1, ['1', ' ', '+', ' ', '2']⟩, ⟨.TK_RESERVED, 0, ['+', ' ', '2']⟩,
      ⟨.TK_NUM, 2, ['2']⟩, (⟨.TK_EOF, 0, []⟩ : Token)] : List Token) ≠ [] ∧
    (∃ init, ([⟨.TK_NUM, 1, ['1', ' ', '+', ' ', '2']⟩, ⟨.TK_RESERVED, 0, ['+', ' ', '2']⟩,
      ⟨.TK_NUM, 2, ['2']⟩, (⟨.TK_EOF, 0, []⟩ : Token)] : List Token) =
        init ++ [⟨.TK_EOF, 0, []⟩] ∧ (∀ t ∈ init, t.kind ≠ .TK_EOF) ∧
      tokPos ("1 + 2".toList) ⟨.TK_EOF, 0, []⟩ = ("1 + 2".toList).length) ∧
    List.Chain' (fun a b => tokPos ("1 + 2".toList) a + tokWidth a ≤ tokPos ("1 + 2".toList) b ∧
      tokPos ("1 + 2".toList) a < tokPos ("1 + 2".toList) b)
      [⟨.TK_NUM, 1, ['1', ' ', '+', ' ', '2']⟩, ⟨.TK_RESERVED, 0, ['+', ' ', '2']⟩,
       ⟨.TK_NUM, 2, ['2']⟩, ⟨.TK_EOF, 0, []⟩] ∧
    (∀ t ∈ ([⟨.TK_NUM, 1, ['1', ' ', '+', ' ', '2']⟩, ⟨.TK_RESERVED, 0, ['+', ' ', '2']⟩,
      ⟨.TK_NUM, 2, ['2']⟩, (⟨.TK_EOF, 0, []⟩ : Token)] : List Token),
      t.kind = .TK_RESERVED → tokWidth t = 1 ∧
        (strHead t.str = '+' ∨ strHead t.str = '-') ∧ t.val = 0) := by
  have ht : tokenize ("1 + 2".toList) = .ok
      [⟨.TK_NUM, 1, ['1', ' ', '+', ' ', '2']⟩, ⟨.TK_RESERVED, 0, ['+', ' ', '2']⟩,
       ⟨.TK_NUM, 2, ['2']⟩, ⟨.TK_EOF, 0, []⟩] := by
    simp [tokenize, tok_space, tok_digit, tok_op, tok_nil, isspace, isdigit, parseDigits,
      digitVal, List.dropWhile, List.takeWhile, Except.map]
  have h := claim4_token_invariants ("1 + 2".toList) _ ht
  exact ⟨ht, h.1, h.2.1, h.2.2.1, h.2.2.2⟩

/-- C9: whitespace between digit runs never causes a lexical error (the lexer
succeeds exactly when every character is whitespace, an operator, or a
digit), and on an input of the shape `number whitespace number` the lexer
produces two separate `Number` tokens and the program then rejects the input
with a *grammar* error (`expect('-')` failing, not the lexical
"cannot tokenize" error) positioned at the second number. -/
theorem claim9_adjacent_numbers :
    (∀ input : List Char, (∃ ts, tokenize input = .ok ts) ↔ ∀ c ∈ input, tokShape c = true) ∧
    (∀ w0 d1 ws d2 wend : List Char,
      WsOk w0 → DigitsOk d1 → WsOk ws → ws ≠ [] → DigitsOk d2 → WsOk wend →
      tokenize (w0 ++ (d1 ++ (ws ++ (d2 ++ wend)))) = .ok
        [⟨.TK_NUM, parseDigits d1, d1 ++ (ws ++ (d2 ++ wend))⟩,
         ⟨.TK_NUM, parseDigits d2, d2 ++ wend⟩, ⟨.TK_EOF, 0, []⟩] ∧
      main (w0 ++ (d1 ++ (ws ++ (d2 ++ wend)))) =
        ⟨prologue ++ [Line.mov (parseDigits d1)], some ⟨d2 ++ wend, .expectedChar '-'⟩⟩ ∧
      (⟨d2 ++ wend, .expectedChar '-'⟩ : CompErr).msg ≠ .cantTokenize ∧
      errPos (w0 ++ (d1 ++ (ws ++ (d2 ++ wend)))) ⟨d2 ++ wend, .expectedChar '-'⟩ =
        w0.length + d1.length + ws.length) := by
  refine ⟨fun input => tok_ok_iff input, ?_⟩
  intro w0 d1 ws d2 wend h0 hd1 hws hne hd2 hw
  obtain ⟨ht, hm⟩ := main_two_nums h0 hd1 hws hne hd2 hw
  refine ⟨ht, hm, by simp, ?_⟩
  show (w0 ++ (d1 ++ (ws ++ (d2 ++ wend)))).length - (d2 ++ wend).length =
    w0.length + d1.length + ws.length
  simp only [List.length_append]
  omega

/-- Witness for C9 at the input `"1 2"`. -/
theorem claim9_witness :
    (tokShape ' ' = true ∧ (∃ ts, tokenize [' '] = .ok ts)) ∧
    (WsOk ([] : List Char) ∧ DigitsOk ['1'] ∧ WsOk [' '] ∧ ([' '] : List Char) ≠ [] ∧
      DigitsOk ['2'] ∧ WsOk ([] : List Char)) ∧
    (tokenize ([] ++ (['1'] ++ ([' '] ++ (['2'] ++ [])))) = .ok
      [⟨.TK_NUM, parseDigits ['1'], ['1'] ++ ([' '] ++ (['2'] ++ []))⟩,
       ⟨.TK_NUM, parseDigits ['2'], ['2'] ++ []⟩, ⟨.TK_EOF, 0, []⟩] ∧
     main ([] ++ (['1'] ++ ([' '] ++ (['2'] ++ [])))) =
       ⟨prologue ++ [Line.mov (parseDigits ['1'])], some ⟨['2'] ++ [], .expectedChar '-'⟩⟩ ∧
     (⟨['2'] ++ [], .expectedChar '-'⟩ : CompErr).msg ≠ .cantTokenize ∧
     errPos ([] ++ (['1'] ++ ([' '] ++ (['2'] ++ [])))) ⟨['2'] ++ [], .expectedChar '-'⟩ =
       ([] : List Char).length + (['1'] : List Char).length + ([' '] : List Char).length) :=
  ⟨⟨by decide, (claim9_adjacent_numbers.1 [' ']).mpr (by decide)⟩,
   ⟨by decide, by decide, by decide, by decide, by decide, by decide⟩,
   claim9_adjacent_numbers.2 [] ['1'] [' '] ['2'] []
     (by decide) (by decide) (by decide) (by decide) (by decide) (by decide)⟩

end NineCC
